import Mathlib

/-!
Verification of the picasso clusterer (`picasso/clusterer.py`) against its
natural-language specification.

The clustering pipeline and the frame-analysis filter are embedded over `ℚ`
(an idealisation of the Python floats that keeps every definition executable
and decidable); the aggregation step, which takes a square root, is embedded
over `ℝ`.  Fallible float operations (division by zero, square root of a
negative number, which produce NaN in numpy) are embedded as `Option`-valued
operations where `none` is the NaN / non-finite marker.
-/

namespace Picasso

/-! ### Spatial index and local-maxima labeler (`_cluster`) -/

/-- Squared Euclidean distance between two points given as coordinate lists
(the dimension is the list length; `scipy.spatial.KDTree` queries compare the
Euclidean distance with the radius, which for a nonnegative radius is
equivalent to comparing squared quantities). -/
def dist2 (p q : List ℚ) : ℚ :=
  (List.zipWith (fun a b => (a - b) ^ 2) p q).sum

/-- Neighbor list of point `i`: all indices `j` (in ascending order, `i`
included) whose distance to `i` is at most the radius.  This embeds
`tree.query_ball_tree(tree, radius)[i]`. -/
def nbhd (X : List (List ℚ)) (r : ℚ) (i : ℕ) : List ℕ :=
  (List.range X.length).filter (fun j => dist2 (X.getD i []) (X.getD j []) ≤ r ^ 2)

/-- `n_i`: the number of neighbors of point `i` (self-inclusive), i.e.
`len(neighbors[i])`. -/
def nNeigh (X : List (List ℚ)) (r : ℚ) (i : ℕ) : ℕ :=
  (nbhd X r i).length

/-- `max([len(neighbors[_]) for _ in idx])`: the largest neighbor count over
the neighborhood of `i` (`0` on an empty neighborhood; in the source the
neighborhood always contains `i` itself, so it is never empty). -/
def maxNeighCount (X : List (List ℚ)) (r : ℚ) (i : ℕ) : ℕ :=
  ((nbhd X r i).map (nNeigh X r)).foldl Nat.max 0

/-- Local-maximum flag for point `i` (`lm[i]` in the source): set iff
`n > min_locs` and `n` equals the maximal neighbor count within the
neighborhood of `i`. -/
def lmFlag (X : List (List ℚ)) (r : ℚ) (minLocs : ℕ) (i : ℕ) : Bool :=
  let n := nNeigh X r i
  if minLocs < n then
    if n = maxNeighCount X r i then true else false
  else false

/-- `lm_idx = np.where(lm == 1)[0]`: indices of the local maxima, in
ascending order. -/
def lmIdxOf (X : List (List ℚ)) (r : ℚ) (minLocs : ℕ) : List ℕ :=
  (List.range X.length).filter (fun i => lmFlag X r minLocs i)

/-- One iteration of the inner label-propagation loop of `_cluster`, for the
current local maximum `i`, counter value `count` and visited neighbor `j`:

    if labels[i] == -1:
        if j == 0:
            labels[i] = count
        labels[j] = count
    else:
        if labels[j] == -1:
            labels[j] = labels[i]

Out-of-range reads are given the default `-1`; in the pipeline `i` and `j`
are always in range. -/
def propStep (labels : List ℤ) (count : ℤ) (i j : ℕ) : List ℤ :=
  if labels.getD i (-1) = -1 then
    let labels1 := if j = 0 then labels.set i count else labels
    labels1.set j count
  else
    if labels.getD j (-1) = -1 then labels.set j (labels.getD i (-1)) else labels

/-- The inner loop `for j in neighbors[i]` of the propagation step, for one
local maximum `i` with counter value `count`. -/
def propPass (nb : ℕ → List ℕ) (labels : List ℤ) (count : ℤ) (i : ℕ) : List ℤ :=
  (nb i).foldl (fun ls j => propStep ls count i j) labels

/-- The outer loop `for count, i in enumerate(lm_idx)`: processes the local
maxima in order, with the counter starting at `count`. -/
def propagateAux (nb : ℕ → List ℕ) (labels : List ℤ) (count : ℤ) :
    List ℕ → List ℤ
  | [] => labels
  | i :: rest => propagateAux nb (propPass nb labels count i) (count + 1) rest

/-- The label array produced by `_cluster` before the optional frame
analysis: labels start at `-1` everywhere and are assigned by the
propagation loop over the local maxima. -/
def clusterNoFA (X : List (List ℚ)) (r : ℚ) (minLocs : ℕ) : List ℤ :=
  propagateAux (nbhd X r) (List.replicate X.length (-1)) 0 (lmIdxOf X r minLocs)

/-! ### Frame analysis (`_frame_analysis` and `frame_analysis`) -/

/-- `.max()` of a numpy array / pandas series (the source only applies it to
nonempty data; `0` on `[]`). -/
def listMax : List ℚ → ℚ
  | [] => 0
  | x :: xs => xs.foldl max x

/-- `.min()` of a numpy array (only applied to nonempty data; `0` on `[]`). -/
def listMin : List ℚ → ℚ
  | [] => 0
  | x :: xs => xs.foldl min x

/-- `.mean()` of a numpy array / pandas series. -/
def meanQ (xs : List ℚ) : ℚ :=
  xs.sum / xs.length

/-- The bin that `np.histogram(·, bins=21)` assigns to value `v`, when the
data range is `[mn, mx]`: 21 equal-width bins over `[mn, mx]`, half-open
except the last, which is closed.  When `mn = mx` numpy widens the range to
`(mn - 0.5, mx + 0.5)`, putting every value in bin 10. -/
def binIndex (mn mx v : ℚ) : ℕ :=
  if mx = mn then 10
  else min (Int.toNat ⌊(v - mn) * 21 / (mx - mn)⌋) 20

/-- `np.histogram(xs, bins=21)[0].max()`: the population of the most
populated of the 21 equal-width bins spanning the data's own range
`[xs.min(), xs.max()]`. -/
def maxBinCount (xs : List ℚ) : ℕ :=
  ((List.range 21).map
    (fun k => (xs.filter (fun v => binIndex (listMin xs) (listMax xs) v = k)).length)).foldl
    Nat.max 0

/-- Embeds `_frame_analysis(frame, n_frames)`: returns `1` if the cluster
whose member frames are `frames` passes frame analysis, `0` otherwise.
Rejects iff the mean frame is below `0.2 * n_frames` or above
`0.8 * n_frames`, or the most populated histogram bin holds more than
`0.8 * n_locs` members. -/
def frame_analysis1 (frames : List ℚ) (nFrames : ℚ) : ℕ :=
  let mean_frame := meanQ frames
  let n_locs := frames.length
  let max_locs_bin := maxBinCount frames
  if mean_frame < (2 / 10) * nFrames ∨ mean_frame > (8 / 10) * nFrames ∨
      (max_locs_bin : ℚ) > (8 / 10) * (n_locs : ℚ) then 0
  else 1

/-- The frames of the members of cluster `l`, in original order: the group
that `pd.Series(frame, index=labels).groupby(...)` forms for key `l`. -/
def groupFrames (labels : List ℤ) (frame : List ℚ) (l : ℤ) : List ℚ :=
  match labels, frame with
  | a :: ls, f :: fs =>
      if a = l then f :: groupFrames ls fs l else groupFrames ls fs l
  | _, _ => []

/-- Embeds `frame_analysis(labels, frame)`: runs `_frame_analysis` on every
cluster id present (`n_frames = frame.max()`), collects the ids that failed
(`discard`) and relabels their members to `-1`
(`labels[np.isin(labels, discard)] = -1`). -/
def frame_analysis (labels : List ℤ) (frame : List ℚ) : List ℤ :=
  let nFrames := listMax frame
  let discard := labels.dedup.filter
    (fun l => frame_analysis1 (groupFrames labels frame l) nFrames = 0)
  labels.map (fun l => if l ∈ discard then -1 else l)

/-- The set `discard` of `frame_analysis`: the cluster ids present in
`labels` whose groups fail `_frame_analysis` (definitionally the `discard`
local of `frame_analysis`, named for use in proofs). -/
def discardOf (labels : List ℤ) (frame : List ℚ) : List ℤ :=
  labels.dedup.filter
    (fun l => frame_analysis1 (groupFrames labels frame l) (listMax frame) = 0)

/-- Embeds `_cluster(X, radius, min_locs, frame)`: label propagation,
followed by frame analysis when a frame array is given (`frame=None` encodes
the disabled filter). -/
def cluster (X : List (List ℚ)) (r : ℚ) (minLocs : ℕ) :
    Option (List ℚ) → List ℤ
  | some f => frame_analysis (clusterNoFA X r minLocs) f
  | none => clusterNoFA X r minLocs

/-! ### Aggregation (`error_sums_wtd`, `cluster_center`), over `ℝ`

numpy float division by zero and `np.sqrt` of a negative number produce
non-finite values (inf/NaN) instead of raising; `Option ℝ` embeds this,
`none` being the non-finite marker, which then propagates. -/

/-- Float division, `none` on a zero divisor (numpy would give inf/NaN). -/
noncomputable def safeDiv (a b : ℝ) : Option ℝ :=
  if b = 0 then none else some (a / b)

/-- `np.sqrt`, `none` (NaN) on negative input. -/
noncomputable def safeSqrt (a : ℝ) : Option ℝ :=
  if a < 0 then none else some (Real.sqrt a)

/-- Maps a binary operation over the non-finite marker: any NaN operand
makes the result NaN. -/
def oMap2 (f : ℝ → ℝ → ℝ) : Option ℝ → Option ℝ → Option ℝ
  | some a, some b => some (f a b)
  | _, _ => none

/-- `.mean()` over `ℝ` data. -/
noncomputable def rmean (xs : List ℝ) : ℝ :=
  xs.sum / xs.length

/-- `np.average(v, weights=w) = (w * v).sum() / w.sum()`. -/
noncomputable def wavg (v w : List ℝ) : Option ℝ :=
  safeDiv (List.zipWith (· * ·) w v).sum w.sum

/-- Embeds `error_sums_wtd(x, w)`:
`(w * (x - (w * x).sum() / w.sum())**2).sum() / w.sum()`. -/
noncomputable def error_sums_wtd (x w : List ℝ) : Option ℝ :=
  (safeDiv (List.zipWith (· * ·) w x).sum w.sum).bind fun m =>
    safeDiv (List.zipWith (fun wi xi => wi * (xi - m) ^ 2) w x).sum w.sum

/-- `np.sqrt(error_sums_wtd(v, w) / (n - 1))`: the per-axis propagated
precision as `cluster_center` computes it before in-plane symmetrization;
`n` is the cluster size. -/
noncomputable def lp_axis_raw (v w : List ℝ) (n : ℕ) : Option ℝ :=
  ((error_sums_wtd v w).bind fun e => safeDiv e ((n : ℝ) - 1)).bind safeSqrt

/-- One cluster's worth of localizations, grouped by cluster id: the columns
of the `pandas.DataFrame` group handed to `cluster_center`.  `z = none`
encodes a 2D input table (no `z` attribute). -/
structure GroupLocs where
  frame : List ℝ
  x : List ℝ
  y : List ℝ
  photons : List ℝ
  sx : List ℝ
  sy : List ℝ
  bg : List ℝ
  lpx : List ℝ
  lpy : List ℝ
  net_gradient : List ℝ
  z : Option (List ℝ)

/-- `len(grouplocs)`: the number of rows of the group. -/
def GroupLocs.size (g : GroupLocs) : ℕ :=
  g.frame.length

/-- The runtime error the Python function can raise: on the 2D branch the
tuple is bound to the local name `results` while the function returns
`result`, which is assigned only on the 3D branch, so the `return result`
line raises an unbound-local error. -/
inductive PyError where
  | unboundLocal : PyError
deriving DecidableEq

/-- The 14-field record built on the 3D branch of `cluster_center` (the only
branch that returns). -/
structure ClusterCenter where
  frame : ℝ
  x : Option ℝ
  y : Option ℝ
  photons : ℝ
  sx : ℝ
  sy : ℝ
  bg : ℝ
  lpx : Option ℝ
  lpy : Option ℝ
  ellipticity : Option ℝ
  net_gradient : ℝ
  n : ℕ
  z : Option ℝ
  lpz : Option ℝ

/-- Embeds `cluster_center(grouplocs)` line by line: mean frame; `x`, `y`
weighted by inverse squared precision; plain means; per-axis propagated
precisions `sqrt(error_sums_wtd(·, lp·) / (n - 1))`; `lpx` and `lpy` both
set to their average; `ellipticity = sx / sy`; on 3D input, `z` weighted by
`1 / (lpx * 2)**2` and `lpz = 2 * lpx`, returning the record; on 2D input
the 12-tuple is bound to the dead local `results` and the `return result`
line raises an unbound-local error. -/
noncomputable def cluster_center (g : GroupLocs) : Except PyError ClusterCenter :=
  let frame := rmean g.frame
  let x := wavg g.x (g.lpx.map fun p => 1 / p ^ 2)
  let y := wavg g.y (g.lpy.map fun p => 1 / p ^ 2)
  let photons := rmean g.photons
  let sx := rmean g.sx
  let sy := rmean g.sy
  let bg := rmean g.bg
  let lpx0 := lp_axis_raw g.x g.lpx g.size
  let lpy0 := lp_axis_raw g.y g.lpy g.size
  let lpx := oMap2 (fun a b => (a + b) / 2) lpx0 lpy0
  let lpy := lpx
  let ellipticity := safeDiv sx sy
  let net_gradient := rmean g.net_gradient
  let n := g.size
  match g.z with
  | some zs =>
      let z := wavg zs (g.lpx.map fun p => 1 / (p * 2) ^ 2)
      let lpz := lpx.map fun v => 2 * v
      .ok ⟨frame, x, y, photons, sx, sy, bg, lpx, lpy, ellipticity,
        net_gradient, n, z, lpz⟩
  | none => .error .unboundLocal

/-- Projection used to state results: `some r.lpx` when `cluster_center`
returned a record `r`, `none` when it raised. -/
def okLpx : Except PyError ClusterCenter → Option (Option ℝ)
  | .ok r => some r.lpx
  | .error _ => none

/-! ### Definitions following the specification text (for comparison) -/

/-- The propagated precision exactly as claim C1 words it:
`sqrt( Σ w_i (v_i − v̄_w)² / Σ w_i / (n − 1) )` with weights
`w_i = 1 / lp_i²` and `v̄_w` the mean weighted by those same weights. -/
noncomputable def spec_lp_axis (v lp : List ℝ) : ℝ :=
  let w := lp.map fun p => 1 / p ^ 2
  let ws := w.sum
  let vbar := (List.zipWith (· * ·) w v).sum / ws
  Real.sqrt
    ((List.zipWith (fun wi vi => wi * (vi - vbar) ^ 2) w v).sum / ws /
      ((v.length : ℝ) - 1))

/-- The propagated precision formula as the code actually computes it, for
the amended claim C1: the same weighted-variance-of-the-mean shape but with
weights `w_i = lp_i` — the raw per-point precisions, exactly the second
argument `cluster_center` passes to `error_sums_wtd`. -/
noncomputable def amended_lp_axis (v w : List ℝ) (n : ℕ) : ℝ :=
  let ws := w.sum
  let vbar := (List.zipWith (· * ·) w v).sum / ws
  Real.sqrt
    ((List.zipWith (fun wi vi => wi * (vi - vbar) ^ 2) w v).sum / ws /
      ((n : ℝ) - 1))

/-- The bin that claim C4's burst test assigns to frame `v`: 21 equal-width
bins partitioning the full acquisition range `[0, n_frames]` (not the
cluster's own frame range). -/
def binIndexFull (nf v : ℚ) : ℕ :=
  if nf = 0 then 10
  else min (Int.toNat ⌊v * 21 / nf⌋) 20

/-- The burst statistic as claim C4 words it: the population of the most
populated of 21 equal-width bins spanning the full acquisition frame range
`[0, n_frames]`. -/
def fullRangeMaxBin (frames : List ℚ) (nf : ℚ) : ℕ :=
  ((List.range 21).map
    (fun k => (frames.filter (fun v => binIndexFull nf v = k)).length)).foldl
    Nat.max 0

/-! ### Concrete inputs used for counterexamples and witnesses -/

/-- Eight 2D points: point 0 isolated; a three-point star `1,2,3` centred at
point 3; a bridge point 4 within radius 10 of both star centres; a second
star `5,6,7` centred at point 5.  Radius 10, `min_locs = 3` makes exactly
points 3 and 5 local maxima, not neighbors of each other, with point 4
neighbor of both. -/
def Xsteal : List (List ℚ) :=
  [[1000, 1000], [0, 5], [0, -5], [0, 0], [9, 0], [18, 0], [18, 5], [18, -5]]

/-- The label state right after the propagation pass of the first local
maximum (point 3, counter 0) of `Xsteal`, i.e. the state in force when the
pass of the second local maximum (point 5, counter 1) begins. -/
def stealL1 : List ℤ :=
  propPass (nbhd Xsteal 10) (List.replicate 8 (-1)) 0 3

/-- Nine points on a line (1D): point 0 isolated; points 1–4 close together
(local maxima 2 and 3, mutual neighbors); points 5–8 close together (local
maxima 6 and 7, mutual neighbors).  With radius 2 and `min_locs = 3` the
counter is consumed by all four local maxima but only counts 0 and 2 ever
label anything. -/
def Xgap : List (List ℚ) :=
  [[1000], [0], [1], [2], [3], [20], [21], [22], [23]]

/-- Three collinear points with radius 1: only the middle point is a local
maximum for `min_locs = 2`. -/
def Xone : List (List ℚ) :=
  [[0], [1], [2]]

/-- Two coincident points: with radius 1 and `min_locs = 1` both are tied
for the maximal neighbor count, so both are accepted as local maxima. -/
def Xtie : List (List ℚ) :=
  [[0], [0]]

/-- Labels for the C4 counterexample: one five-member cluster `0` and one
unclustered point. -/
def labelsC4 : List ℤ :=
  [0, 0, 0, 0, 0, -1]

/-- Frames for the C4 counterexample: cluster 0 occupies the narrow frame
window 400–420 of an acquisition whose maximum frame is 1000. -/
def frameC4 : List ℚ :=
  [400, 405, 410, 415, 420, 1000]

/-- A 3D two-member cluster with distinct precisions `lpx = [1, 2]`; the
weighted-variance factors differ depending on whether the weights are the
raw precisions (as the code passes them) or their inverse squares (as the
spec says). -/
noncomputable def gC1 : GroupLocs :=
  ⟨[10, 20], [0, 2], [0, 2], [1, 1], [1, 1], [1, 1], [0, 0], [1, 2], [1, 2],
    [0, 0], some [0, 0]⟩

/-- A degenerate 3D cluster with exactly one member. -/
noncomputable def gDegen : GroupLocs :=
  ⟨[0], [0], [0], [1], [1], [1], [0], [1], [1], [0], some [0]⟩

/-- Another single-member 3D cluster, with different field values. -/
noncomputable def gDegenW : GroupLocs :=
  ⟨[7], [5], [4], [2], [1], [1], [0], [2], [3], [1], some [6]⟩

/-- A 2D cluster (no `z` column). -/
noncomputable def g2d : GroupLocs :=
  ⟨[0, 1], [0, 1], [0, 1], [1, 1], [1, 1], [1, 1], [0, 0], [1, 1], [1, 1],
    [0, 0], none⟩

/-! ### Basic list lemmas -/

theorem getD_set_self {α : Type} (l : List α) {n : ℕ} (h : n < l.length)
    (a d : α) : (l.set n a).getD n d = a := by
  induction l generalizing n with
  | nil => simp at h
  | cons x xs ih =>
      cases n with
      | zero => rfl
      | succ m => exact ih (Nat.lt_of_succ_lt_succ h)

theorem getD_set_ne {α : Type} (l : List α) {n m : ℕ} (h : n ≠ m)
    (a d : α) : (l.set n a).getD m d = l.getD m d := by
  induction l generalizing n m with
  | nil => simp
  | cons x xs ih =>
      cases n with
      | zero =>
          cases m with
          | zero => exact absurd rfl h
          | succ k => rfl
      | succ n0 =>
          cases m with
          | zero => rfl
          | succ k => exact ih (fun hh => h (by rw [hh]))

theorem getD_replicate_neg {n k : ℕ} :
    (List.replicate n (-1 : ℤ)).getD k (-1) = -1 := by
  induction n generalizing k with
  | zero => simp [List.getD]
  | succ n0 ih =>
      cases k with
      | zero => rfl
      | succ k0 => exact ih

/-! ### The local-maximum criterion -/

theorem lmFlag_iff (X : List (List ℚ)) (r : ℚ) (minLocs i : ℕ) :
    lmFlag X r minLocs i = true ↔
      minLocs < nNeigh X r i ∧ nNeigh X r i = maxNeighCount X r i := by
  by_cases h1 : minLocs < nNeigh X r i <;>
    by_cases h2 : nNeigh X r i = maxNeighCount X r i <;>
    simp [lmFlag, h1, h2]

/-! ### Concrete neighbor lists -/

theorem nbhd_steal_0 : nbhd Xsteal 10 0 = [0] := by
  norm_num [nbhd, Xsteal, dist2, List.range_succ, List.filter_append, List.filter_cons]

theorem nbhd_steal_1 : nbhd Xsteal 10 1 = [1, 2, 3] := by
  norm_num [nbhd, Xsteal, dist2, List.range_succ, List.filter_append, List.filter_cons]

theorem nbhd_steal_2 : nbhd Xsteal 10 2 = [1, 2, 3] := by
  norm_num [nbhd, Xsteal, dist2, List.range_succ, List.filter_append, List.filter_cons]

theorem nbhd_steal_3 : nbhd Xsteal 10 3 = [1, 2, 3, 4] := by
  norm_num [nbhd, Xsteal, dist2, List.range_succ, List.filter_append, List.filter_cons]

theorem nbhd_steal_4 : nbhd Xsteal 10 4 = [3, 4, 5] := by
  norm_num [nbhd, Xsteal, dist2, List.range_succ, List.filter_append, List.filter_cons]

theorem nbhd_steal_5 : nbhd Xsteal 10 5 = [4, 5, 6, 7] := by
  norm_num [nbhd, Xsteal, dist2, List.range_succ, List.filter_append, List.filter_cons]

theorem nbhd_steal_6 : nbhd Xsteal 10 6 = [5, 6, 7] := by
  norm_num [nbhd, Xsteal, dist2, List.range_succ, List.filter_append, List.filter_cons]

theorem nbhd_steal_7 : nbhd Xsteal 10 7 = [5, 6, 7] := by
  norm_num [nbhd, Xsteal, dist2, List.range_succ, List.filter_append, List.filter_cons]

theorem lm_steal : lmIdxOf Xsteal 10 3 = [3, 5] := by
  simp only [lmIdxOf, lmFlag, nNeigh, maxNeighCount, show Xsteal.length = 8 from rfl,
    List.range_succ, List.range_zero, List.filter_append, List.filter_cons,
    List.filter_nil, List.map_cons, List.map_nil,
    nbhd_steal_0, nbhd_steal_1, nbhd_steal_2, nbhd_steal_3, nbhd_steal_4,
    nbhd_steal_5, nbhd_steal_6, nbhd_steal_7]
  decide

theorem stealL1_eval : stealL1 = [-1, 0, 0, 0, 0, -1, -1, -1] := by
  simp only [stealL1, propPass, nbhd_steal_3]
  decide

theorem cluster_steal : clusterNoFA Xsteal 10 3 = [-1, 0, 0, 0, 1, 1, 1, 1] := by
  simp only [clusterNoFA, lm_steal, show Xsteal.length = 8 from rfl, propagateAux,
    propPass, nbhd_steal_3, nbhd_steal_5]
  decide

theorem nbhd_gap_1 : nbhd Xgap 2 1 = [1, 2, 3] := by
  norm_num [nbhd, Xgap, dist2, List.range_succ, List.filter_append, List.filter_cons]

theorem nbhd_gap_2 : nbhd Xgap 2 2 = [1, 2, 3, 4] := by
  norm_num [nbhd, Xgap, dist2, List.range_succ, List.filter_append, List.filter_cons]

theorem nbhd_gap_3 : nbhd Xgap 2 3 = [1, 2, 3, 4] := by
  norm_num [nbhd, Xgap, dist2, List.range_succ, List.filter_append, List.filter_cons]

theorem nbhd_gap_4 : nbhd Xgap 2 4 = [2, 3, 4] := by
  norm_num [nbhd, Xgap, dist2, List.range_succ, List.filter_append, List.filter_cons]

theorem nbhd_gap_5 : nbhd Xgap 2 5 = [5, 6, 7] := by
  norm_num [nbhd, Xgap, dist2, List.range_succ, List.filter_append, List.filter_cons]

theorem nbhd_gap_6 : nbhd Xgap 2 6 = [5, 6, 7, 8] := by
  norm_num [nbhd, Xgap, dist2, List.range_succ, List.filter_append, List.filter_cons]

theorem nbhd_gap_7 : nbhd Xgap 2 7 = [5, 6, 7, 8] := by
  norm_num [nbhd, Xgap, dist2, List.range_succ, List.filter_append, List.filter_cons]

theorem nbhd_gap_8 : nbhd Xgap 2 8 = [6, 7, 8] := by
  norm_num [nbhd, Xgap, dist2, List.range_succ, List.filter_append, List.filter_cons]

theorem nbhd_gap_0 : nbhd Xgap 2 0 = [0] := by
  norm_num [nbhd, Xgap, dist2, List.range_succ, List.filter_append, List.filter_cons]

theorem lm_gap : lmIdxOf Xgap 2 3 = [2, 3, 6, 7] := by
  simp only [lmIdxOf, lmFlag, nNeigh, maxNeighCount, show Xgap.length = 9 from rfl,
    List.range_succ, List.range_zero, List.filter_append, List.filter_cons,
    List.filter_nil, List.map_cons, List.map_nil,
    nbhd_gap_0, nbhd_gap_1, nbhd_gap_2, nbhd_gap_3, nbhd_gap_4,
    nbhd_gap_5, nbhd_gap_6, nbhd_gap_7, nbhd_gap_8]
  decide

theorem cluster_gap : clusterNoFA Xgap 2 3 = [-1, 0, 0, 0, 0, 2, 2, 2, 2] := by
  simp only [clusterNoFA, lm_gap, show Xgap.length = 9 from rfl, propagateAux,
    propPass, nbhd_gap_2, nbhd_gap_3, nbhd_gap_6, nbhd_gap_7]
  decide

theorem nbhd_one_0 : nbhd Xone 1 0 = [0, 1] := by
  norm_num [nbhd, Xone, dist2, List.range_succ, List.filter_append, List.filter_cons]

theorem nbhd_one_1 : nbhd Xone 1 1 = [0, 1, 2] := by
  norm_num [nbhd, Xone, dist2, List.range_succ, List.filter_append, List.filter_cons]

theorem nbhd_one_2 : nbhd Xone 1 2 = [1, 2] := by
  norm_num [nbhd, Xone, dist2, List.range_succ, List.filter_append, List.filter_cons]

theorem lm_one : lmIdxOf Xone 1 2 = [1] := by
  simp only [lmIdxOf, lmFlag, nNeigh, maxNeighCount, show Xone.length = 3 from rfl,
    List.range_succ, List.range_zero, List.filter_append, List.filter_cons,
    List.filter_nil, List.map_cons, List.map_nil,
    nbhd_one_0, nbhd_one_1, nbhd_one_2]
  decide

theorem nbhd_tie_0 : nbhd Xtie 1 0 = [0, 1] := by
  norm_num [nbhd, Xtie, dist2, List.range_succ, List.filter_append, List.filter_cons]

theorem nbhd_tie_1 : nbhd Xtie 1 1 = [0, 1] := by
  norm_num [nbhd, Xtie, dist2, List.range_succ, List.filter_append, List.filter_cons]

/-! ### Claim C10: the local-maximum criterion, ties all accepted -/

/-- C10: point `i` is flagged a local maximum iff its self-inclusive
neighbor count `n_i` satisfies `n_i > min_locs` and `n_i` equals the
maximum neighbor count over `neighbors(i)`; there is no further tie-break,
so every point tied for that maximum is accepted. -/
theorem C10_local_maximum (X : List (List ℚ)) (r : ℚ) (minLocs i : ℕ)
    (hi : i < X.length) :
    lmFlag X r minLocs i = true ↔
      minLocs < nNeigh X r i ∧ nNeigh X r i = maxNeighCount X r i :=
  lmFlag_iff X r minLocs i

/-- Witness for C10 on two coincident points: both are tied for the maximal
neighbor count 2 and both are accepted as local maxima. -/
theorem C10_witness : lmFlag Xtie 1 1 0 = true ∧ lmFlag Xtie 1 1 1 = true := by
  constructor
  · refine (C10_local_maximum Xtie 1 1 0 (by norm_num [Xtie])).mpr ?_
    simp only [nNeigh, maxNeighCount, nbhd_tie_0, nbhd_tie_1,
      List.map_cons, List.map_nil]
    decide
  · refine (C10_local_maximum Xtie 1 1 1 (by norm_num [Xtie])).mpr ?_
    simp only [nNeigh, maxNeighCount, nbhd_tie_0, nbhd_tie_1,
      List.map_cons, List.map_nil]
    decide

/-! ### Claim C2: the 2D branch of `cluster_center` never returns -/

/-- C2: on any 2D group (no `z` column) `cluster_center` never produces a
record: the 2D branch binds the dead local `results` while the `return`
line reads the unbound `result`, so the call raises an unbound-local error
for every 2D input. -/
theorem C2_two_d_never_returns (g : GroupLocs) (hz : g.z = none) :
    cluster_center g = Except.error PyError.unboundLocal := by
  simp only [cluster_center, hz]

/-- Witness for C2 at a concrete two-member 2D cluster. -/
theorem C2_witness : cluster_center g2d = Except.error PyError.unboundLocal :=
  C2_two_d_never_returns g2d rfl

/-! ### Claim C3: relabeling of already-labeled neighbors -/

/-- Counterexample to C3: on `Xsteal` the local maxima are points 3 and 5.
After the pass of point 3 (counter 0) the state is `stealL1`, in which the
bridge point 4 carries label 0.  The pass of point 5 (counter 1) visits its
first neighbor 4 in exactly that state, and the visit overwrites the
existing label: `labels[4]` changes from 0 to 1, because while
`labels[i] == -1` the inner loop assigns `labels[j] = count`
unconditionally. -/
theorem C3_counterexample :
    lmIdxOf Xsteal 10 3 = [3, 5] ∧
    4 ∈ nbhd Xsteal 10 5 ∧
    stealL1.getD 4 (-1) = 0 ∧
    (propStep stealL1 1 5 4).getD 4 (-1) = 1 := by
  refine ⟨lm_steal, ?_, ?_, ?_⟩
  · rw [nbhd_steal_5]; decide
  · rw [stealL1_eval]; decide
  · rw [stealL1_eval]; decide

/-- C3 amended: a visit to an already-labeled neighbor `j` leaves it
unchanged only when the local maximum `i` being processed already has a
label at the time of the visit; while `labels[i] = -1`, every visited
neighbor — labeled or not — is overwritten with the current counter
value. -/
theorem C3_amended (labels : List ℤ) (count : ℤ) (i j : ℕ)
    (hj : j < labels.length) :
    (labels.getD i (-1) ≠ -1 → labels.getD j (-1) ≠ -1 →
      propStep labels count i j = labels) ∧
    (labels.getD i (-1) = -1 →
      (propStep labels count i j).getD j (-1) = count) := by
  constructor
  · intro hi0 hj0
    rw [propStep, if_neg hi0, if_neg hj0]
  · intro hi0
    rw [propStep, if_pos hi0]
    by_cases h0 : j = 0
    · simp only [h0, if_pos rfl]
      exact getD_set_self _ (by simpa using h0 ▸ hj) _ _
    · simp only [if_neg h0]
      exact getD_set_self _ hj _ _

/-- Witness for C3 amended, at concrete two-element label states. -/
theorem C3_amended_witness :
    propStep [0, 1] 5 0 1 = [0, 1] ∧
    (propStep [-1, 1] 5 0 1).getD 1 (-1) = 5 :=
  ⟨(C3_amended [0, 1] 5 0 1 (by decide)).1 (by decide) (by decide),
    (C3_amended [-1, 1] 5 0 1 (by decide)).2 (by decide)⟩

/-! ### Claims C5 and C6: counterexamples on the final label array -/

/-- Counterexample to C5: on `Xsteal` with `min_locs = 3`, cluster 0 ends
with exactly 3 members (points 1, 2, 3) because the pass of local maximum 5
steals the bridge point 4 from it, so its size is not strictly greater than
`min_locs`. -/
theorem C5_counterexample :
    (0 : ℤ) ∈ clusterNoFA Xsteal 10 3 ∧
    (clusterNoFA Xsteal 10 3).count 0 = 3 := by
  rw [cluster_steal]
  decide

/-- Counterexample to C6: on `Xgap` the four local maxima 2, 3, 6, 7 consume
counter values 0–3, but maxima 3 and 7 are already labeled when processed,
so their counter values never label anything: the labels present are
`{0, 2}`, which is not contiguous from zero. -/
theorem C6_counterexample :
    (0 : ℤ) ∈ clusterNoFA Xgap 2 3 ∧
    (2 : ℤ) ∈ clusterNoFA Xgap 2 3 ∧
    (1 : ℤ) ∉ clusterNoFA Xgap 2 3 := by
  rw [cluster_gap]
  decide

/-! ### Claim C6 amended: labels are bounded by the number of local maxima -/

theorem propStep_length (labels : List ℤ) (count : ℤ) (i j : ℕ) :
    (propStep labels count i j).length = labels.length := by
  rw [propStep]
  split
  · split <;> simp
  · split <;> simp

theorem getD_mem_or_default {α : Type} (l : List α) (k : ℕ) (d : α) :
    l.getD k d ∈ l ∨ l.getD k d = d := by
  by_cases h : k < l.length
  · left
    rw [List.getD_eq_getElem l d h]
    exact List.getElem_mem h
  · right
    exact List.getD_eq_default l d (Nat.le_of_not_lt h)

theorem propStep_bound {K : ℤ} (labels : List ℤ) (count : ℤ) (i j : ℕ)
    (hL : ∀ v ∈ labels, v = -1 ∨ (0 ≤ v ∧ v < K))
    (hc : 0 ≤ count ∧ count < K) :
    ∀ v ∈ propStep labels count i j, v = -1 ∨ (0 ≤ v ∧ v < K) := by
  intro v hv
  have hgi : labels.getD i (-1) = -1 ∨ (0 ≤ labels.getD i (-1) ∧ labels.getD i (-1) < K) := by
    rcases getD_mem_or_default labels i (-1) with h | h
    · exact hL _ h
    · left; exact h
  rw [propStep] at hv
  split at hv
  · rcases List.mem_or_eq_of_mem_set hv with hv1 | hv1
    · split at hv1
      · rcases List.mem_or_eq_of_mem_set hv1 with hv2 | hv2
        · exact hL v hv2
        · right; exact hv2 ▸ hc
      · exact hL v hv1
    · right; exact hv1 ▸ hc
  · split at hv
    · rcases List.mem_or_eq_of_mem_set hv with hv1 | hv1
      · exact hL v hv1
      · exact hv1 ▸ hgi
    · exact hL v hv

theorem propPass_bound {K : ℤ} (nb : ℕ → List ℕ) (labels : List ℤ)
    (count : ℤ) (i : ℕ)
    (hL : ∀ v ∈ labels, v = -1 ∨ (0 ≤ v ∧ v < K))
    (hc : 0 ≤ count ∧ count < K) :
    ∀ v ∈ propPass nb labels count i, v = -1 ∨ (0 ≤ v ∧ v < K) := by
  rw [propPass]
  generalize nb i = js
  induction js generalizing labels with
  | nil => exact hL
  | cons j js ih =>
      exact ih (propStep labels count i j) (propStep_bound labels count i j hL hc)

theorem propagateAux_bound {K : ℤ} (nb : ℕ → List ℕ) (lmIdx : List ℕ)
    (labels : List ℤ) (count : ℤ)
    (hL : ∀ v ∈ labels, v = -1 ∨ (0 ≤ v ∧ v < K))
    (h0 : 0 ≤ count) (hlen : count + (lmIdx.length : ℤ) ≤ K) :
    ∀ v ∈ propagateAux nb labels count lmIdx, v = -1 ∨ (0 ≤ v ∧ v < K) := by
  induction lmIdx generalizing labels count with
  | nil => exact hL
  | cons i rest ih =>
      rw [propagateAux]
      refine ih (propPass nb labels count i) (count + 1) ?_ (by omega) ?_
      · refine propPass_bound nb labels count i hL ⟨h0, ?_⟩
        have : (rest.length : ℤ) ≥ 0 := Int.ofNat_nonneg _
        simp only [List.length_cons] at hlen
        omega
      · simp only [List.length_cons] at hlen
        omega

/-- C6 amended: every label the propagation step emits is `-1` or lies in
`[0, #local maxima)`; contiguity from zero does NOT hold (see the
counterexample): the counter advances once per local maximum, not once per
merged component, so counter values of local maxima that were already
labeled when processed are skipped, leaving gaps. -/
theorem C6_amended (X : List (List ℚ)) (r : ℚ) (minLocs : ℕ) (v : ℤ)
    (hv : v ∈ clusterNoFA X r minLocs) :
    v = -1 ∨ (0 ≤ v ∧ v < ((lmIdxOf X r minLocs).length : ℤ)) := by
  refine propagateAux_bound (nbhd X r) (lmIdxOf X r minLocs)
    (List.replicate X.length (-1)) 0 ?_ le_rfl (by omega) v hv
  intro w hw
  left
  exact List.eq_of_mem_replicate hw

/-- Witness for C6 amended at `Xgap`: the present label 2 is bounded by the
number 4 of local maxima. -/
theorem C6_amended_witness :
    (2 : ℤ) = -1 ∨ ((0 : ℤ) ≤ 2 ∧ (2 : ℤ) < ((lmIdxOf Xgap 2 3).length : ℤ)) :=
  C6_amended Xgap 2 3 2 (by rw [cluster_gap]; decide)

/-! ### Claim C5 amended: the single-local-maximum case -/

theorem foldl_propStep_fresh (i N : ℕ) :
    ∀ (js : List ℕ) (L : List ℤ) (S : List ℕ),
      L.length = N →
      (∀ j ∈ js, j < N) →
      (∀ k ∈ S, L.getD k (-1) = 0) →
      (∀ k, k ∉ S → k ≠ i → L.getD k (-1) = -1) →
      (L.getD i (-1) = 0 ∨ L.getD i (-1) = -1) →
      (∀ k, (k ∈ S ∨ k ∈ js) →
        (js.foldl (fun ls j => propStep ls 0 i j) L).getD k (-1) = 0) ∧
      (∀ k, ¬(k ∈ S ∨ k ∈ js) → k ≠ i →
        (js.foldl (fun ls j => propStep ls 0 i j) L).getD k (-1) = -1) := by
  intro js
  induction js with
  | nil =>
      intro L S hlen hjs hS hout hi
      refine ⟨?_, ?_⟩
      · intro k hk
        rcases hk with hk | hk
        · exact hS k hk
        · simp at hk
      · intro k hk hki
        exact hout k (fun h => hk (Or.inl h)) hki
  | cons j js ih =>
      intro L S hlen hjs hS hout hi
      simp only [List.foldl_cons]
      have hjN : j < N := hjs j (List.mem_cons_self j js)
      have hlen' : (propStep L 0 i j).length = N := by
        rw [propStep_length]; exact hlen
      have step : ∀ k ∈ j :: S, (propStep L 0 i j).getD k (-1) = 0 := by
        intro k hk
        rw [propStep]
        by_cases hLi : L.getD i (-1) = -1
        · rw [if_pos hLi]
          by_cases hkj : k = j
          · subst hkj
            refine getD_set_self _ ?_ _ _
            rw [show ((if k = 0 then L.set i 0 else L)).length = N by
              split <;> simp [hlen]]
            exact hjN
          · have hkS : k ∈ S := by
              rcases List.mem_cons.mp hk with h | h
              · exact absurd h hkj
              · exact h
            rw [getD_set_ne _ (fun h => hkj h.symm)]
            split
            · by_cases hki : i = k
              · subst hki
                exact absurd (hS i hkS) (by rw [hLi]; decide)
              · rw [getD_set_ne _ hki]
                exact hS k hkS
            · exact hS k hkS
        · have hLi0 : L.getD i (-1) = 0 := by
            rcases hi with h | h
            · exact h
            · exact absurd h hLi
          rw [if_neg hLi]
          by_cases hLj : L.getD j (-1) = -1
          · rw [if_pos hLj]
            by_cases hkj : k = j
            · subst hkj
              rw [getD_set_self _ (hlen ▸ hjN) _ _]
              exact hLi0
            · have hkS : k ∈ S := by
                rcases List.mem_cons.mp hk with h | h
                · exact absurd h hkj
                · exact h
              rw [getD_set_ne _ (fun h => hkj h.symm)]
              exact hS k hkS
          · rw [if_neg hLj]
            rcases List.mem_cons.mp hk with h | h
            · subst h
              by_cases hkS : k ∈ S
              · exact hS k hkS
              · by_cases hki : k = i
                · rw [hki]; exact hLi0
                · exact absurd (hout k hkS hki) hLj
            · exact hS k h
      have hout' : ∀ k, k ∉ (j :: S) → k ≠ i →
          (propStep L 0 i j).getD k (-1) = -1 := by
        intro k hk hki
        have hkj : k ≠ j := fun h => hk (h ▸ List.mem_cons_self j S)
        have hkS : k ∉ S := fun h => hk (List.mem_cons_of_mem j h)
        rw [propStep]
        by_cases hLi : L.getD i (-1) = -1
        · rw [if_pos hLi, getD_set_ne _ (fun h => hkj h.symm)]
          split
          · rw [getD_set_ne _ (fun h => hki h.symm)]
            exact hout k hkS hki
          · exact hout k hkS hki
        · rw [if_neg hLi]
          split
          · rw [getD_set_ne _ (fun h => hkj h.symm)]
            exact hout k hkS hki
          · exact hout k hkS hki
      have hi' : (propStep L 0 i j).getD i (-1) = 0 ∨
          (propStep L 0 i j).getD i (-1) = -1 := by
        rw [propStep]
        by_cases hLi : L.getD i (-1) = -1
        · rw [if_pos hLi]
          by_cases hij : i = j
          · left
            subst hij
            refine getD_set_self _ ?_ _ _
            rw [show ((if i = 0 then L.set i 0 else L)).length = N by
              split <;> simp [hlen]]
            exact hjN
          · rw [getD_set_ne _ (fun h => hij h.symm)]
            split
            · by_cases hiN : i < N
              · left; exact getD_set_self _ (hlen ▸ hiN) _ _
              · right
                refine List.getD_eq_default _ _ ?_
                simp only [List.length_set, hlen]
                exact Nat.le_of_not_lt hiN
            · right; exact hLi
        · have hLi0 : L.getD i (-1) = 0 := by
            rcases hi with h | h
            · exact h
            · exact absurd h hLi
          rw [if_neg hLi]
          split
          · by_cases hij : i = j
            · left
              subst hij
              rw [getD_set_self _ (hlen ▸ hjN) _ _]
              exact hLi0
            · left
              rw [getD_set_ne _ (fun h => hij h.symm)]
              exact hLi0
          · left; exact hLi0
      have := ih (propStep L 0 i j) (j :: S) hlen'
        (fun j' hj' => hjs j' (List.mem_cons_of_mem j hj')) step hout' hi'
      refine ⟨?_, ?_⟩
      · intro k hk
        refine this.1 k ?_
        rcases hk with hk | hk
        · exact Or.inl (List.mem_cons_of_mem j hk)
        · rcases List.mem_cons.mp hk with h | h
          · exact Or.inl (h ▸ List.mem_cons_self j S)
          · exact Or.inr h
      · intro k hk hki
        refine this.2 k ?_ hki
        intro hmem
        rcases hmem with h | h
        · rcases List.mem_cons.mp h with h1 | h1
          · exact hk (Or.inr (h1 ▸ List.mem_cons_self j js))
          · exact hk (Or.inl h1)
        · exact hk (Or.inr (List.mem_cons_of_mem j h))

theorem dist2_self (p : List ℚ) : dist2 p p = 0 := by
  rw [dist2, List.zipWith_same]
  induction p with
  | nil => rfl
  | cons a as ih => simpa using ih

theorem self_mem_nbhd (X : List (List ℚ)) (r : ℚ) (i : ℕ)
    (hi : i < X.length) : i ∈ nbhd X r i := by
  rw [nbhd, List.mem_filter]
  refine ⟨List.mem_range.mpr hi, ?_⟩
  simp only [dist2_self, decide_eq_true_eq]
  positivity

/-- C5 amended: the claimed size invariant holds in the single-local-maximum
case: when the labeler finds exactly one local maximum `i`, the final
cluster 0 is precisely the neighborhood of `i`, whose size `n_i` is
strictly greater than `min_locs`.  (With two or more local maxima a later
pass can steal members from an earlier cluster, and the invariant fails:
see the counterexample.) -/
theorem C5_amended (X : List (List ℚ)) (r : ℚ) (minLocs : ℕ) (i : ℕ)
    (h : lmIdxOf X r minLocs = [i]) (k : ℕ) :
    ((clusterNoFA X r minLocs).getD k (-1) =
      if k ∈ nbhd X r i then 0 else -1) ∧
    minLocs < nNeigh X r i := by
  have hiMem : i ∈ lmIdxOf X r minLocs := by rw [h]; exact List.mem_singleton_self i
  have hiFlag := List.mem_filter.mp (by rwa [lmIdxOf] at hiMem)
  have hiN : i < X.length := List.mem_range.mp hiFlag.1
  have hflag := (lmFlag_iff X r minLocs i).mp hiFlag.2
  have hself : i ∈ nbhd X r i := self_mem_nbhd X r i hiN
  have key := foldl_propStep_fresh i X.length (nbhd X r i)
    (List.replicate X.length (-1)) []
    (List.length_replicate _ _)
    (fun j hj => List.mem_range.mp (List.mem_filter.mp (by rwa [nbhd] at hj)).1)
    (by intro k hk; simp at hk)
    (fun k _ _ => getD_replicate_neg)
    (Or.inr getD_replicate_neg)
  have hrun : clusterNoFA X r minLocs =
      (nbhd X r i).foldl (fun ls j => propStep ls 0 i j) (List.replicate X.length (-1)) := by
    rw [clusterNoFA, h, propagateAux, propagateAux, propPass]
  refine ⟨?_, hflag.1⟩
  rw [hrun]
  by_cases hk : k ∈ nbhd X r i
  · rw [if_pos hk]
    exact key.1 k (Or.inr hk)
  · rw [if_neg hk]
    refine key.2 k ?_ ?_
    · intro hmem
      rcases hmem with h1 | h1
      · simp at h1
      · exact hk h1
    · intro hki
      exact hk (hki ▸ hself)

/-- Witness for C5 amended on `Xone` (single local maximum 1,
`min_locs = 2`): point 2 is a neighbor of point 1 and is labeled 0, and
`n_1 = 3 > 2`. -/
theorem C5_amended_witness :
    ((clusterNoFA Xone 1 2).getD 2 (-1) =
      if 2 ∈ nbhd Xone 1 1 then 0 else -1) ∧
    2 < nNeigh Xone 1 1 :=
  C5_amended Xone 1 2 1 lm_one 2

/-! ### Frame analysis: generic characterizations -/

theorem frame_analysis1_zero_or_one (frames : List ℚ) (nf : ℚ) :
    frame_analysis1 frames nf = 0 ∨ frame_analysis1 frames nf = 1 := by
  simp only [frame_analysis1]
  split
  · exact Or.inl rfl
  · exact Or.inr rfl

theorem frame_analysis1_eq_one_iff (frames : List ℚ) (nf : ℚ) :
    frame_analysis1 frames nf = 1 ↔
      (2 / 10) * nf ≤ meanQ frames ∧ meanQ frames ≤ (8 / 10) * nf ∧
        (maxBinCount frames : ℚ) ≤ (8 / 10) * (frames.length : ℚ) := by
  simp only [frame_analysis1]
  split
  · rename_i h
    constructor
    · intro h0
      exact absurd h0 (by norm_num)
    · rintro ⟨h1, h2, h3⟩
      rcases h with h | h | h
      · exact absurd h (not_lt.mpr h1)
      · exact absurd h (not_lt.mpr h2)
      · exact absurd h (not_lt.mpr h3)
  · rename_i h
    push_neg at h
    exact iff_of_true rfl ⟨h.1, h.2.1, h.2.2⟩

theorem getD_mem_of_lt {α : Type} (l : List α) {i : ℕ} (h : i < l.length)
    (d : α) : l.getD i d ∈ l := by
  rw [List.getD_eq_getElem _ _ h]
  exact List.getElem_mem h

theorem getD_map_lt {α β : Type} (f : α → β) (l : List α) {i : ℕ}
    (h : i < l.length) (d : β) (d' : α) :
    (l.map f).getD i d = f (l.getD i d') := by
  rw [List.getD_eq_getElem _ _ (by simpa using h), List.getD_eq_getElem _ _ h,
    List.getElem_map]

/-! ### Claim C7: the range test uses a closed interval -/

/-- C7: a cluster that passes the burst test passes frame analysis iff its
mean member frame lies in the closed interval
`[0.2 * n_frames, 0.8 * n_frames]`; in particular a mean frame of exactly
`0.2 * n_frames` passes and anything strictly below fails. -/
theorem C7_range_test (frames : List ℚ) (nf : ℚ)
    (hburst : (maxBinCount frames : ℚ) ≤ (8 / 10) * (frames.length : ℚ)) :
    frame_analysis1 frames nf = 1 ↔
      (2 / 10) * nf ≤ meanQ frames ∧ meanQ frames ≤ (8 / 10) * nf := by
  rw [frame_analysis1_eq_one_iff]
  constructor
  · rintro ⟨h1, h2, _⟩
    exact ⟨h1, h2⟩
  · rintro ⟨h1, h2⟩
    exact ⟨h1, h2, hburst⟩

theorem listMin_13 : listMin [(1 : ℚ), 3] = 1 := by
  norm_num [listMin, List.foldl_cons, List.foldl_nil, min_def]

theorem listMax_13 : listMax [(1 : ℚ), 3] = 3 := by
  norm_num [listMax, List.foldl_cons, List.foldl_nil, max_def]

theorem maxBin_13 : maxBinCount [(1 : ℚ), 3] = 1 := by
  have b1 : binIndex 1 3 1 = 0 := by
    rw [binIndex, if_neg (by norm_num)]
    norm_num <;> omega
  have b3 : binIndex 1 3 3 = 20 := by
    rw [binIndex, if_neg (by norm_num)]
    norm_num <;> omega
  rw [maxBinCount, listMin_13, listMax_13]
  simp only [List.range_succ, List.range_zero, List.map_append, List.map_cons,
    List.map_nil, List.filter_cons, List.filter_nil, b1, b3]
  decide

theorem meanQ_13 : meanQ [(1 : ℚ), 3] = 2 := by
  norm_num [meanQ, List.sum_cons, List.sum_nil]

/-- Witness for C7: the cluster with frames `{1, 3}` and `n_frames = 10` has
mean frame exactly `0.2 * n_frames = 2` and passes. -/
theorem C7_witness : frame_analysis1 [(1 : ℚ), 3] 10 = 1 := by
  refine (C7_range_test [(1 : ℚ), 3] 10 ?_).mpr ?_
  · rw [maxBin_13]
    norm_num
  · rw [meanQ_13]
    norm_num

/-! ### Claim C4: which range the burst-test bins span -/

theorem listMax_C4 : listMax frameC4 = 1000 := by
  norm_num [listMax, frameC4, List.foldl_cons, List.foldl_nil, max_def]

theorem groupFrames_C4_0 :
    groupFrames labelsC4 frameC4 0 = [400, 405, 410, 415, 420] := by
  norm_num [groupFrames, labelsC4, frameC4]

theorem groupFrames_C4_m1 : groupFrames labelsC4 frameC4 (-1) = [1000] := by
  norm_num [groupFrames, labelsC4, frameC4]

theorem listMin_C4grp : listMin [(400 : ℚ), 405, 410, 415, 420] = 400 := by
  norm_num [listMin, List.foldl_cons, List.foldl_nil, min_def]

theorem listMax_C4grp : listMax [(400 : ℚ), 405, 410, 415, 420] = 420 := by
  norm_num [listMax, List.foldl_cons, List.foldl_nil, max_def]

theorem maxBin_C4grp : maxBinCount [(400 : ℚ), 405, 410, 415, 420] = 1 := by
  have b0 : binIndex 400 420 400 = 0 := by
    rw [binIndex, if_neg (by norm_num)]
    norm_num <;> omega
  have b1 : binIndex 400 420 405 = 5 := by
    rw [binIndex, if_neg (by norm_num)]
    norm_num <;> omega
  have b2 : binIndex 400 420 410 = 10 := by
    rw [binIndex, if_neg (by norm_num)]
    norm_num <;> omega
  have b3 : binIndex 400 420 415 = 15 := by
    rw [binIndex, if_neg (by norm_num)]
    norm_num <;> omega
  have b4 : binIndex 400 420 420 = 20 := by
    rw [binIndex, if_neg (by norm_num)]
    norm_num <;> omega
  rw [maxBinCount, listMin_C4grp, listMax_C4grp]
  simp only [List.range_succ, List.range_zero, List.map_append, List.map_cons,
    List.map_nil, List.filter_cons, List.filter_nil, b0, b1, b2, b3, b4]
  decide

theorem meanQ_C4grp : meanQ [(400 : ℚ), 405, 410, 415, 420] = 410 := by
  norm_num [meanQ, List.sum_cons, List.sum_nil]

theorem fa1_C4grp : frame_analysis1 [(400 : ℚ), 405, 410, 415, 420] 1000 = 1 := by
  rw [frame_analysis1_eq_one_iff, meanQ_C4grp, maxBin_C4grp]
  norm_num

theorem meanQ_1000 : meanQ [(1000 : ℚ)] = 1000 := by
  norm_num [meanQ, List.sum_cons, List.sum_nil]

theorem fa1_m1grp : frame_analysis1 [(1000 : ℚ)] 1000 = 0 := by
  rcases frame_analysis1_zero_or_one [(1000 : ℚ)] 1000 with h | h
  · exact h
  · have := (frame_analysis1_eq_one_iff [(1000 : ℚ)] 1000).mp h
    rw [meanQ_1000] at this
    norm_num at this

theorem fullRange_C4grp :
    fullRangeMaxBin [(400 : ℚ), 405, 410, 415, 420] 1000 = 5 := by
  have b0 : binIndexFull 1000 400 = 8 := by
    rw [binIndexFull, if_neg (by norm_num)]
    norm_num <;> omega
  have b1 : binIndexFull 1000 405 = 8 := by
    rw [binIndexFull, if_neg (by norm_num)]
    norm_num <;> omega
  have b2 : binIndexFull 1000 410 = 8 := by
    rw [binIndexFull, if_neg (by norm_num)]
    norm_num <;> omega
  have b3 : binIndexFull 1000 415 = 8 := by
    rw [binIndexFull, if_neg (by norm_num)]
    norm_num <;> omega
  have b4 : binIndexFull 1000 420 = 8 := by
    rw [binIndexFull, if_neg (by norm_num)]
    norm_num <;> omega
  rw [fullRangeMaxBin]
  simp only [List.range_succ, List.range_zero, List.map_append, List.map_cons,
    List.map_nil, List.filter_cons, List.filter_nil, b0, b1, b2, b3, b4]
  decide

/-- Counterexample to C4: the cluster with frames 400–420 (acquisition
maximum frame 1000) is kept by the code — its most populated bin holds 1 of
5 members, because `np.histogram` bins span the cluster's own range
`[400, 420]` — although under the claim's reading (21 bins over the full
range `[0, 1000]`) all 5 members fall in one bin, exceeding 80%, so the
claim predicts rejection. -/
theorem C4_counterexample :
    frame_analysis labelsC4 frameC4 = labelsC4 ∧
    ((fullRangeMaxBin (groupFrames labelsC4 frameC4 0) (listMax frameC4) : ℚ) >
      (8 / 10) * ((groupFrames labelsC4 frameC4 0).length : ℚ)) := by
  constructor
  · have hd : labelsC4.dedup = [0, -1] := by decide
    simp only [frame_analysis, listMax_C4, hd, List.filter_cons, List.filter_nil,
      groupFrames_C4_0, groupFrames_C4_m1, fa1_C4grp, fa1_m1grp]
    decide
  · rw [groupFrames_C4_0, listMax_C4, fullRange_C4grp]
    norm_num

/-- C4 amended: a member of cluster `l` keeps its label under
`frame_analysis` iff `l`'s group passes the range test and the burst test,
where the burst test bins span the cluster's own frame range
`[min, max]` of its member frames (see `maxBinCount`), not the full
acquisition range. -/
theorem C4_amended (labels : List ℤ) (frame : List ℚ) (i : ℕ) (l : ℤ)
    (hl : labels.getD i (-1) = l) (hne : l ≠ -1) :
    ((frame_analysis labels frame).getD i (-1) = l ↔
      ((2 / 10) * listMax frame ≤ meanQ (groupFrames labels frame l) ∧
        meanQ (groupFrames labels frame l) ≤ (8 / 10) * listMax frame ∧
        (maxBinCount (groupFrames labels frame l) : ℚ) ≤
          (8 / 10) * ((groupFrames labels frame l).length : ℚ))) := by
  have hiL : i < labels.length := by
    by_contra hcon
    rw [List.getD_eq_default _ _ (Nat.le_of_not_lt hcon)] at hl
    exact hne hl.symm
  have hpres : l ∈ labels := hl ▸ getD_mem_of_lt labels hiL (-1)
  rw [← frame_analysis1_eq_one_iff]
  simp only [frame_analysis]
  rw [getD_map_lt _ _ hiL (-1) (-1), hl]
  by_cases hd : l ∈ labels.dedup.filter
      (fun l' => frame_analysis1 (groupFrames labels frame l') (listMax frame) = 0)
  · rw [if_pos hd]
    have h0 := (List.mem_filter.mp hd).2
    simp only [decide_eq_true_eq] at h0
    constructor
    · intro hcon
      exact absurd hcon.symm hne
    · intro h1
      rw [h0] at h1
      exact absurd h1 (by norm_num)
  · rw [if_neg hd]
    have h1 : frame_analysis1 (groupFrames labels frame l) (listMax frame) = 1 := by
      rcases frame_analysis1_zero_or_one (groupFrames labels frame l) (listMax frame)
        with h | h
      · exfalso
        exact hd (List.mem_filter.mpr ⟨List.mem_dedup.mpr hpres, by
          simp only [decide_eq_true_eq]; exact h⟩)
      · exact h
    exact iff_of_true rfl h1

/-- Witness for C4 amended: in a two-point input whose only cluster has
frames `{1, 3}` and `n_frames = 3`, the member at index 0 keeps its
label. -/
theorem C4_amended_witness :
    (frame_analysis [0, 0] [(1 : ℚ), 3]).getD 0 (-1) = 0 := by
  refine (C4_amended [0, 0] [(1 : ℚ), 3] 0 0 (by decide) (by decide)).mpr ?_
  have hg : groupFrames [0, 0] [(1 : ℚ), 3] 0 = [(1 : ℚ), 3] := by
    norm_num [groupFrames]
  have hm : listMax [(1 : ℚ), 3] = 3 := listMax_13
  rw [hg, hm, meanQ_13, maxBin_13]
  norm_num

/-! ### Claim C9: idempotence of the frame-analysis filter -/

theorem frame_analysis_eq_map (labels : List ℤ) (frame : List ℚ) :
    frame_analysis labels frame =
      labels.map (fun l => if l ∈ discardOf labels frame then -1 else l) :=
  rfl

theorem mem_discardOf {labels : List ℤ} {frame : List ℚ} {l : ℤ} :
    l ∈ discardOf labels frame ↔
      l ∈ labels ∧
        frame_analysis1 (groupFrames labels frame l) (listMax frame) = 0 := by
  rw [discardOf, List.mem_filter, List.mem_dedup]
  simp only [decide_eq_true_eq]

theorem groupFrames_map_of_iff (φ : ℤ → ℤ) (a : ℤ)
    (hφ : ∀ b, φ b = a ↔ b = a) :
    ∀ (labels : List ℤ) (frame : List ℚ),
      groupFrames (labels.map φ) frame a = groupFrames labels frame a := by
  intro labels
  induction labels with
  | nil => intro frame; rfl
  | cons b ls ih =>
      intro frame
      cases frame with
      | nil => rfl
      | cons f fs =>
          simp only [List.map_cons, groupFrames]
          by_cases hb : b = a
          · rw [if_pos ((hφ b).mpr hb), if_pos hb, ih]
          · rw [if_neg (fun h => hb ((hφ b).mp h)), if_neg hb, ih]

/-- C9: the frame-analysis filter is idempotent — applying it twice to the
same label and frame arrays produces exactly the output of applying it
once.  A surviving cluster keeps exactly its members, so its group, and
therefore its test outcome, is unchanged on the second pass; rejected
members are already `-1` and stay `-1`. -/
theorem C9_idempotent (labels : List ℤ) (frame : List ℚ) :
    frame_analysis (frame_analysis labels frame) frame =
      frame_analysis labels frame := by
  rw [frame_analysis_eq_map labels frame]
  rw [frame_analysis_eq_map
    (labels.map (fun l => if l ∈ discardOf labels frame then -1 else l)) frame]
  have hfix : ∀ a ∈ labels.map (fun l => if l ∈ discardOf labels frame then -1 else l),
      (if a ∈ discardOf
          (labels.map (fun l => if l ∈ discardOf labels frame then -1 else l))
          frame then -1 else a) = a := by
    intro a ha
    rcases List.mem_map.mp ha with ⟨b, hb, hba⟩
    by_cases hneg : a = -1
    · subst hneg
      split <;> rfl
    · have hba' : b = a ∧ b ∉ discardOf labels frame := by
        by_cases hbD : b ∈ discardOf labels frame
        · rw [if_pos hbD] at hba
          exact absurd hba.symm hneg
        · rw [if_neg hbD] at hba
          exact ⟨hba, hbD⟩
      have haL : a ∈ labels := hba'.1 ▸ hb
      have haD : a ∉ discardOf labels frame := hba'.1 ▸ hba'.2
      have h1 : frame_analysis1 (groupFrames labels frame a) (listMax frame) ≠ 0 :=
        fun h0 => haD (mem_discardOf.mpr ⟨haL, h0⟩)
      have hφ : ∀ b', (if b' ∈ discardOf labels frame then -1 else b') = a ↔ b' = a := by
        intro b'
        constructor
        · intro h
          by_cases hb' : b' ∈ discardOf labels frame
          · rw [if_pos hb'] at h
            exact absurd h.symm hneg
          · rwa [if_neg hb'] at h
        · intro h
          subst h
          rw [if_neg haD]
      have hgrp := groupFrames_map_of_iff _ a hφ labels frame
      rw [if_neg ?_]
      intro hmem
      have := (mem_discardOf.mp hmem).2
      rw [hgrp] at this
      exact h1 this
    -- no remaining goals
  calc (labels.map (fun l => if l ∈ discardOf labels frame then -1 else l)).map
        (fun a => if a ∈ discardOf
          (labels.map (fun l => if l ∈ discardOf labels frame then -1 else l))
          frame then -1 else a)
      = (labels.map (fun l => if l ∈ discardOf labels frame then -1 else l)).map id :=
        List.map_congr_left hfix
    _ = labels.map (fun l => if l ∈ discardOf labels frame then -1 else l) :=
        List.map_id _

/-! ### Aggregation helpers -/

theorem safeDiv_of_ne {a b : ℝ} (hb : b ≠ 0) : safeDiv a b = some (a / b) := by
  rw [safeDiv, if_neg hb]

theorem safeDiv_zero (a : ℝ) : safeDiv a 0 = none := by
  rw [safeDiv, if_pos rfl]

theorem safeSqrt_of_nonneg {a : ℝ} (h : 0 ≤ a) :
    safeSqrt a = some (Real.sqrt a) := by
  rw [safeSqrt, if_neg (not_lt.mpr h)]

theorem sum_zipWith_sq_nonneg (m : ℝ) :
    ∀ (w v : List ℝ), (∀ p ∈ w, 0 ≤ p) →
      0 ≤ (List.zipWith (fun wi vi => wi * (vi - m) ^ 2) w v).sum := by
  intro w
  induction w with
  | nil =>
      intro v _
      simp
  | cons p ws ih =>
      intro v hw
      cases v with
      | nil => simp
      | cons x xs =>
          simp only [List.zipWith_cons_cons, List.sum_cons]
          have h1 : 0 ≤ p * (x - m) ^ 2 :=
            mul_nonneg (hw p (List.mem_cons_self p ws)) (sq_nonneg _)
          have h2 := ih xs (fun q hq => hw q (List.mem_cons_of_mem _ hq))
          linarith

theorem error_sums_wtd_eq {x w : List ℝ} (hw : w.sum ≠ 0) :
    error_sums_wtd x w = some
      ((List.zipWith
        (fun wi xi => wi * (xi - (List.zipWith (· * ·) w x).sum / w.sum) ^ 2)
        w x).sum / w.sum) := by
  rw [error_sums_wtd, safeDiv_of_ne hw]
  simp only [Option.some_bind]
  rw [safeDiv_of_ne hw]

theorem lp_axis_raw_eq {v w : List ℝ} {n : ℕ} (hw : w.sum ≠ 0)
    (hwpos : ∀ p ∈ w, 0 ≤ p) (hn : 2 ≤ n) :
    lp_axis_raw v w n = some (amended_lp_axis v w n) := by
  have hn1 : ((n : ℝ) - 1) ≠ 0 := by
    have h2 : (2 : ℝ) ≤ (n : ℝ) := by exact_mod_cast hn
    intro h
    linarith
  have hn1pos : (0 : ℝ) < (n : ℝ) - 1 := by
    have h2 : (2 : ℝ) ≤ (n : ℝ) := by exact_mod_cast hn
    linarith
  have hwsum : 0 < w.sum :=
    lt_of_le_of_ne (List.sum_nonneg hwpos) (Ne.symm hw)
  have hE : 0 ≤ (List.zipWith
      (fun wi xi => wi * (xi - (List.zipWith (· * ·) w v).sum / w.sum) ^ 2)
      w v).sum / w.sum :=
    div_nonneg (sum_zipWith_sq_nonneg _ w v hwpos) hwsum.le
  have harg : 0 ≤ (List.zipWith
      (fun wi xi => wi * (xi - (List.zipWith (· * ·) w v).sum / w.sum) ^ 2)
      w v).sum / w.sum / ((n : ℝ) - 1) :=
    div_nonneg hE hn1pos.le
  rw [lp_axis_raw, error_sums_wtd_eq hw]
  simp only [Option.some_bind]
  rw [safeDiv_of_ne hn1]
  simp only [Option.some_bind]
  rw [safeSqrt_of_nonneg harg]
  rfl

theorem lp_axis_raw_one (v w : List ℝ) : lp_axis_raw v w 1 = none := by
  rw [lp_axis_raw]
  have h0 : ((1 : ℕ) : ℝ) - 1 = 0 := by norm_num
  cases herr : error_sums_wtd v w with
  | none => rfl
  | some e =>
      simp only [Option.some_bind, h0, safeDiv_zero]
      rfl

theorem okLpx_cc (g : GroupLocs) {zs : List ℝ} (hzs : g.z = some zs) :
    okLpx (cluster_center g) = some (oMap2 (fun a b => (a + b) / 2)
      (lp_axis_raw g.x g.lpx g.size) (lp_axis_raw g.y g.lpy g.size)) := by
  simp only [cluster_center, hzs, okLpx]

/-! ### Claim C8: degenerate clusters produce silent NaN, not an error -/

/-- Counterexample to C8: handed the degenerate single-member 3D cluster
`gDegen`, `cluster_center` does not fail with any error condition — it
returns a record whose symmetrized precision `lpx` is the non-finite marker
(`0/0` NaN from the division by `n - 1 = 0`), i.e. the NaN is emitted
silently. -/
theorem C8_counterexample : okLpx (cluster_center gDegen) = some none := by
  rw [okLpx_cc gDegen (show gDegen.z = some [(0 : ℝ)] from rfl),
    show gDegen.size = 1 from rfl, lp_axis_raw_one, lp_axis_raw_one]
  rfl

/-- C8 amended: for every single-member 3D cluster, `cluster_center`
returns a record (it does not fail), and the record's propagated precision
is the non-finite NaN marker, silently. -/
theorem C8_amended (g : GroupLocs) {zs : List ℝ} (hz : g.z = some zs)
    (h1 : g.size = 1) : okLpx (cluster_center g) = some none := by
  rw [okLpx_cc g hz, h1, lp_axis_raw_one, lp_axis_raw_one]
  rfl

/-- Witness for C8 amended at a second concrete single-member cluster. -/
theorem C8_amended_witness : okLpx (cluster_center gDegenW) = some none :=
  C8_amended gDegenW (show gDegenW.z = some [(6 : ℝ)] from rfl) rfl

/-! ### Claim C1: the weights of the propagated-precision estimator -/

/-- C1 amended: for every 3D cluster with at least two members, nonnegative
precisions and nonzero weight sums, the reported `lpx` (and the equal
`lpy`) is the average of the per-axis values
`sqrt( Σ w_i (v_i − v̄_w)² / Σ w_i / (n − 1) )` for the `x` and `y` axes,
where the weights `w_i` are the RAW per-point precisions `lpx_i`
(resp. `lpy_i`) — the second argument passed to `error_sums_wtd` — not the
inverse squared precisions `1/lpx_i²` that the claim (and the weighted
mean) uses. -/
theorem C1_amended (g : GroupLocs) (hz : g.z.isSome = true) (hn : 2 ≤ g.size)
    (hwx : g.lpx.sum ≠ 0) (hwy : g.lpy.sum ≠ 0)
    (hpx : ∀ p ∈ g.lpx, 0 ≤ p) (hpy : ∀ p ∈ g.lpy, 0 ≤ p) :
    okLpx (cluster_center g) = some (some
      ((amended_lp_axis g.x g.lpx g.size +
        amended_lp_axis g.y g.lpy g.size) / 2)) := by
  obtain ⟨zs, hzs⟩ := Option.isSome_iff_exists.mp hz
  rw [okLpx_cc g hzs, lp_axis_raw_eq hwx hpx hn, lp_axis_raw_eq hwy hpy hn]
  rfl

/-- Witness for C1 amended at the concrete cluster `gC1`. -/
theorem C1_amended_witness :
    okLpx (cluster_center gC1) = some (some
      ((amended_lp_axis gC1.x gC1.lpx gC1.size +
        amended_lp_axis gC1.y gC1.lpy gC1.size) / 2)) := by
  refine C1_amended gC1 rfl (by norm_num [GroupLocs.size, gC1]) ?_ ?_ ?_ ?_
  · rw [show gC1.lpx = [(1 : ℝ), 2] from rfl]
    norm_num
  · rw [show gC1.lpy = [(1 : ℝ), 2] from rfl]
    norm_num
  · rw [show gC1.lpx = [(1 : ℝ), 2] from rfl]
    intro p hp
    rcases List.mem_cons.mp hp with h | h
    · rw [h]; norm_num
    · rw [List.mem_singleton.mp h]; norm_num
  · rw [show gC1.lpy = [(1 : ℝ), 2] from rfl]
    intro p hp
    rcases List.mem_cons.mp hp with h | h
    · rw [h]; norm_num
    · rw [List.mem_singleton.mp h]; norm_num

/-- Counterexample to C1: at the concrete cluster `gC1`
(`x = y = [0, 2]`, `lpx = lpy = [1, 2]`, two members), the propagated
precision the code produces is `sqrt(8/9)` (weights = raw precisions),
while the claim's formula with weights `1/lpx_i²` evaluates to
`sqrt(16/25) = 4/5`; the two differ, so aggregation does not produce the
claimed value. -/
theorem C1_counterexample :
    okLpx (cluster_center gC1) ≠ some (some (spec_lp_axis gC1.x gC1.lpx)) := by
  have hx : gC1.x = [(0 : ℝ), 2] := rfl
  have hy : gC1.y = [(0 : ℝ), 2] := rfl
  have hlpx : gC1.lpx = [(1 : ℝ), 2] := rfl
  have hlpy : gC1.lpy = [(1 : ℝ), 2] := rfl
  have hsize : gC1.size = 2 := rfl
  have hwsum : ([(1 : ℝ), 2]).sum ≠ 0 := by norm_num
  have hpos : ∀ p ∈ [(1 : ℝ), 2], 0 ≤ p := by
    intro p hp
    rcases List.mem_cons.mp hp with h | h
    · rw [h]; norm_num
    · rw [List.mem_singleton.mp h]; norm_num
  have hA : amended_lp_axis [(0 : ℝ), 2] [1, 2] 2 = Real.sqrt (8 / 9) := by
    simp only [amended_lp_axis, List.zipWith_cons_cons, List.zipWith_nil_left,
      List.zipWith_nil_right, List.sum_cons, List.sum_nil]
    norm_num
  have hcode : okLpx (cluster_center gC1) =
      some (some ((Real.sqrt (8 / 9) + Real.sqrt (8 / 9)) / 2)) := by
    rw [okLpx_cc gC1 (show gC1.z = some [(0 : ℝ), 0] from rfl), hx, hlpx, hy,
      hlpy, hsize, lp_axis_raw_eq hwsum hpos (by norm_num), hA]
    rfl
  have hs_nonneg : 0 ≤ spec_lp_axis [(0 : ℝ), 2] [1, 2] := by
    simp only [spec_lp_axis]
    exact Real.sqrt_nonneg _
  have hs_sq : (spec_lp_axis [(0 : ℝ), 2] [1, 2]) ^ 2 = 16 / 25 := by
    simp only [spec_lp_axis, List.map_cons, List.map_nil, List.zipWith_cons_cons,
      List.zipWith_nil_left, List.zipWith_nil_right, List.sum_cons, List.sum_nil,
      List.length_cons, List.length_nil]
    rw [Real.sq_sqrt (by norm_num)]
    norm_num
  rw [hcode, hx, hlpx]
  intro h
  have h2 : (Real.sqrt (8 / 9) + Real.sqrt (8 / 9)) / 2 =
      spec_lp_axis [(0 : ℝ), 2] [1, 2] :=
    Option.some.inj (Option.some.inj h)
  have h3 : Real.sqrt (8 / 9) = spec_lp_axis [(0 : ℝ), 2] [1, 2] := by
    linarith
  have h4 : (Real.sqrt ((8 : ℝ) / 9)) ^ 2 = 8 / 9 := Real.sq_sqrt (by norm_num)
  rw [h3, hs_sq] at h4
  norm_num at h4

end Picasso
